import Mathlib

/-!
Shallow embedding of the stencil-sass plugin (src/dist/index.js) and proofs
about its core algorithms: path normalization (normalizePath), module
specifier splitting (getModuleId), option assembly (getRenderOptions) and
diagnostic construction (loadDiagnostic).

JavaScript strings are modelled as Lean String / List Char; JavaScript
numbers appearing as indices and line/column data are modelled as Int
(they are always integral in the source); absent (undefined / null) values
are modelled with Option. Host capabilities (the node path module, the
in-memory file system, the optional sys capabilities) are external
collaborators of the plugin and are modelled as explicit parameters.
-/

namespace StencilSass

/-! ## JavaScript string primitives -/

/-- Whitespace per the ECMAScript specification of String.prototype.trim:
TAB, LF, VT, FF, CR, SP, NBSP, and the Unicode space separators,
line separator, paragraph separator and BOM. -/
def jsWs (c : Char) : Bool :=
  decide ((9 ≤ c.toNat ∧ c.toNat ≤ 13) ∨ c.toNat = 32 ∨ c.toNat = 0xA0 ∨
    c.toNat = 0x1680 ∨ (0x2000 ≤ c.toNat ∧ c.toNat ≤ 0x200A) ∨
    c.toNat = 0x2028 ∨ c.toNat = 0x2029 ∨ c.toNat = 0x202F ∨
    c.toNat = 0x205F ∨ c.toNat = 0x3000 ∨ c.toNat = 0xFEFF)

/-- JavaScript String.prototype.trim on a character list: drop whitespace
from both ends. -/
def jsTrimL (l : List Char) : List Char :=
  ((l.dropWhile jsWs).reverse.dropWhile jsWs).reverse

/-- Split a character list at every occurrence of the separator character,
as JavaScript String.prototype.split with a single-character separator:
n separators produce n+1 (possibly empty) pieces. -/
def splitOn (sep : Char) : List Char → List (List Char)
  | [] => [[]]
  | c :: cs =>
    let r := splitOn sep cs
    if c = sep then [] :: r
    else
      match r with
      | [] => [[c]]
      | h :: t => (c :: h) :: t

/-- ASCII-only lower casing, the canonicalization a case-insensitive
JavaScript regex performs on the patterns used by this plugin. -/
def asciiLower (c : Char) : Char :=
  if 'A' ≤ c ∧ c ≤ 'Z' then Char.ofNat (c.toNat + 32) else c

/-- Case-insensitive suffix test, modelling the anchored case-insensitive
regexes of the source (for example the test for a .scss or .sass suffix). -/
def endsWithCI (suffix : List Char) (l : List Char) : Bool :=
  suffix.isSuffixOf (l.map asciiLower)

/-- Replace the first occurrence of a pattern (taken literally, as
JavaScript String.prototype.replace with a string pattern) by nothing,
leaving the string unchanged when the pattern does not occur. -/
def replaceFirst (pat : List Char) : List Char → List Char
  | [] => if pat.isPrefixOf ([] : List Char) then ([] : List Char).drop pat.length else []
  | c :: cs =>
    if pat.isPrefixOf (c :: cs) then (c :: cs).drop pat.length
    else c :: replaceFirst pat cs

/-! ## normalizePath (src/dist/index.js lines 311-337) -/

/-- Conversion of a single Windows separator, the per-character action of
str.replace(SLASH_REGEX, slash) in the source. -/
def slashConv (c : Char) : Char :=
  if c = '\\' then '/' else c

/-- Test for the extended-length prefix, EXTENDED_PATH_REGEX in the source:
the four characters backslash backslash question-mark backslash at the
start of the string. -/
def extPrefix (l : List Char) : Bool :=
  ['\\', '\\', '?', '\\'].isPrefixOf l

/-- Test used by NON_ASCII_REGEX in the source: some character outside
the \x00-\x80 range. -/
def hasNonAscii (l : List Char) : Bool :=
  l.any (fun c => 0x80 < c.toNat)

/-- Character-list core of normalizePath, translated from
src/dist/index.js lines 311-337: trim, return extended-length or
non-ASCII paths unchanged, convert backslashes to slashes, then strip a
trailing slash unless the first colon of the string sits within two
characters of the end (a drive root) or the string has length one. -/
def normalizePathL (l : List Char) : List Char :=
  let t := jsTrimL l
  if extPrefix t || hasNonAscii t then t
  else
    let u := t.map slashConv
    if u.getLast? = some '/' then
      match u.findIdx? (fun c => c = ':') with
      | some ci => if (ci : Int) < (u.length : Int) - 2 then u.dropLast else u
      | none => if 1 < u.length then u.dropLast else u
    else u

/-- normalizePath of the source (the non-string input branch throws and is
outside the embedding: Lean inputs are strings). -/
def normalizePath (s : String) : String :=
  String.mk (normalizePathL s.toList)

/-! ## getModuleId (src/dist/index.js lines 343-362) -/

/-- Result of getModuleId: moduleId and filePath start as null in the
source and are then assigned, which the embedding keeps as Option. -/
structure ModuleRef where
  moduleId : Option String
  filePath : Option String
deriving DecidableEq

/-- getModuleId, translated from src/dist/index.js lines 343-362: drop a
leading tilde, split on the slash character, then join the first two
segments for a scoped package (leading at-sign, more than one segment)
and the first segment otherwise; filePath is the join of the remaining
segments. -/
def getModuleId (orgImport : String) : ModuleRef :=
  let o : List Char :=
    if orgImport.toList.head? = some '~' then orgImport.toList.drop 1 else orgImport.toList
  let splt := (splitOn '/' o).map String.mk
  if o.head? = some '@' ∧ 1 < splt.length then
    { moduleId := some (String.intercalate "/" (splt.take 2)),
      filePath := some (String.intercalate "/" (splt.drop 2)) }
  else
    { moduleId := some (splt.headD ""),
      filePath := some (String.intercalate "/" (splt.drop 1)) }

/-! ## loadDiagnostic (src/dist/index.js lines 17-99) and its helpers -/

/-- Stop characters, the STOP_CHARS table of the source without its first
entry: the empty-string entry of the table is matched exactly by the
out-of-range results of String.prototype.charAt and is handled by
stopAt below. -/
def isStopChar (c : Char) : Bool :=
  ['\n', '\r', '\t', ' ', ':', ';', ',', '\x7b', '\x7d', '.', '#', '@', '!',
    '[', ']', '(', ')', '&', '+', '~', '^', '*', '$'].contains c

/-- Stop test at an index, as STOP_CHARS.indexOf(text.charAt(i)) > -1 in
the source: out of range, charAt yields the empty string, which is a
member of STOP_CHARS, so every out-of-range index stops a scan. -/
def stopAt (text : List Char) (i : Nat) : Bool :=
  match text.get? i with
  | some c => isStopChar c
  | none => true

/-- Backward scan of src/dist/index.js lines 54-59: walk from the start
index towards zero, keeping the last index whose character was not a stop
character; cur is the current value of errorCharStart. -/
def backScan (text : List Char) : Nat → Nat → Nat
  | cur, 0 => if stopAt text 0 then cur else 0
  | cur, i + 1 => if stopAt text (i + 1) then cur else backScan text (i + 1) i

/-- Forward scan of src/dist/index.js lines 60-65: count the characters
from the start index up to the first stop character; the loop bound
j <= text.length is subsumed because charAt(text.length) is the empty
string, a stop character. -/
def fwdLen (text : List Char) (s : Nat) : Nat :=
  ((text.drop s).takeWhile (fun c => ¬ isStopChar c)).length

/-- Error span of src/dist/index.js lines 51-69 for a given line text and
reported column: the backward scan, the forward scan, and the
single-character fallback when the forward scan counted nothing and the
start index is positive. An absent column is the NaN path of the source:
neither loop runs and no fallback fires, leaving an undefined start
(none) and length zero. -/
def spanOf (text : List Char) : Option Int → Option Int × Int
  | none => (none, 0)
  | some c =>
    let s : Int := if 0 ≤ c then ((backScan text c.toNat c.toNat : Nat) : Int) else c
    let len : Int := if 0 ≤ s then ((fwdLen text s.toNat : Nat) : Int) else 0
    if len = 0 ∧ 0 < s then (some (s - 1), 1) else (some s, len)

/-- One entry of the lines array of a diagnostic. The text of a context
line is read without the typeof guard of the error line and can be
undefined (none). Sentinel spans are (-1, -1). -/
structure SrcLine where
  lineIndex : Int
  lineNumber : Int
  text : Option String
  errorCharStart : Option Int
  errorLength : Int
deriving DecidableEq

/-- Diagnostic record, the object literal of src/dist/index.js
lines 21-31 plus the lineNumber and columnNumber fields assigned later. -/
structure Diag where
  level : String
  type : String
  language : String
  header : String
  code : String
  relFilePath : Option String
  absFilePath : Option String
  messageText : String
  lineNumber : Option Int
  columnNumber : Option Int
  lines : List SrcLine
deriving DecidableEq

/-- Sass error as consumed by loadDiagnostic: the LegacyException fields
the function reads, each possibly absent. -/
structure SassError where
  status : Option Int
  message : Option String
  file : Option String
  line : Option Int
  column : Option Int

/-- Compilation context as consumed by loadDiagnostic:
context.config.rootDir, context.fs.readFileSync (which can throw, hence
Except) and the diagnostics sink. -/
structure DCtx where
  rootDir : String
  readFile : String → Except Unit String
  diagnostics : List Diag

/-- formatCode of src/dist/index.js lines 105-111. -/
def formatCode (input : Option Int) : String :=
  match input with
  | some n => toString n
  | none => ""

/-- formatMessage of src/dist/index.js lines 118-124: everything before
the first box-drawing half-bar character, or the empty string for a
non-string input. -/
def formatMessage (input : Option String) : String :=
  match input with
  | some m => String.mk ((splitOn '╷' m.toList).headD [])
  | none => ""

/-- formatFileName of src/dist/index.js lines 132-143: empty for a falsy
root directory or file name, otherwise strip the first occurrence of the
root directory, strip one leading separator, and keep at most the last 80
characters behind an ellipsis. -/
def formatFileName (rootDir fileName : String) : String :=
  if rootDir = "" ∨ fileName = "" then ""
  else
    let f1 := replaceFirst rootDir.toList fileName.toList
    let f2 :=
      match f1 with
      | c :: rest => if c = '/' ∨ c = '\\' then rest else f1
      | [] => f1
    let f3 :=
      if 80 < f2.length then '.' :: '.' :: '.' :: f2.drop (f2.length - 80) else f2
    String.mk f3

/-- Array indexing with a JavaScript-style possibly negative index. -/
def jsIndex (xs : List String) (i : Int) : Option String :=
  if 0 ≤ i then xs.get? i.toNat else none

/-- File splitting of src/dist/index.js line 46, sourceText.split on the
regex matching a newline optionally preceded by a carriage return: split
at every LF, then drop one trailing CR from every piece that preceded an
LF (every piece but the last). -/
def splitRNAux : List (List Char) → List (List Char)
  | [] => []
  | [l] => [l]
  | l :: rest => (if l.getLast? = some '\r' then l.dropLast else l) :: splitRNAux rest

/-- String-level wrapper for the line splitting. -/
def splitRN (s : String) : List String :=
  (splitRNAux (splitOn '\n' s.toList)).map String.mk

/-- Error-line entry of src/dist/index.js lines 47-69: the text falls
back to the empty string when the file has no line at the error index
(the typeof guard of line 50), and the span is the stop-character scan. -/
def mkErrorLine (srcLines : List String) (ln : Int) (col? : Option Int) : SrcLine :=
  let t := ((jsIndex srcLines (ln - 1)).getD "")
  let sp := spanOf t.toList col?
  { lineIndex := ln - 1, lineNumber := ln, text := some t,
    errorCharStart := sp.1, errorLength := sp.2 }

/-- Previous-line entry of src/dist/index.js lines 71-80: built above the
error line, with the sentinel span. -/
def mkPrevLine (srcLines : List String) (ln : Int) : SrcLine :=
  { lineIndex := ln - 2, lineNumber := ln - 1, text := jsIndex srcLines (ln - 2),
    errorCharStart := some (-1), errorLength := (-1 : Int) }

/-- Next-line entry of src/dist/index.js lines 81-90: built below the
error line, with the sentinel span. -/
def mkNextLine (srcLines : List String) (ln : Int) : SrcLine :=
  { lineIndex := ln, lineNumber := ln + 1, text := jsIndex srcLines ln,
    errorCharStart := some (-1), errorLength := (-1 : Int) }

/-- Lines array of src/dist/index.js lines 47-90: the error line, a
previous-line entry with sentinel span unshifted when the error line
index is positive, and a next-line entry with sentinel span pushed when
a further source line exists. -/
def mkLines (srcLines : List String) (ln : Int) (col? : Option Int) : List SrcLine :=
  let l1 := [mkErrorLine srcLines ln col?]
  let l2 := if 0 < ln - 1 then mkPrevLine srcLines ln :: l1 else l1
  if ln - 1 + 1 < (srcLines.length : Int) then l2 ++ [mkNextLine srcLines ln] else l2

/-- File path preference of src/dist/index.js lines 32-34: the error's
own file wins unless it is the stdin placeholder or not a string. -/
def effectiveFile (err : SassError) (filePath? : Option String) : Option String :=
  match err.file with
  | some f => if f = "stdin" then filePath? else some f
  | none => filePath?

/-- Diagnostic construction of src/dist/index.js lines 21-96 for a
present error and context: the base record, the file-dependent fields,
and the line context when the error carries a usable line number and the
file read succeeds (a failing read is caught and only logged). -/
def mkDiagnostic (ctx : DCtx) (err : SassError) (filePath? : Option String) : Diag :=
  let base : Diag :=
    { level := "error", type := "css", language := "scss", header := "sass error",
      code := formatCode err.status, relFilePath := none, absFilePath := none,
      messageText := formatMessage err.message, lineNumber := none,
      columnNumber := none, lines := [] }
  match effectiveFile err filePath? with
  | none => base
  | some fp =>
    let d1 : Diag :=
      { base with
        language := if endsWithCI ".scss".toList fp.toList then "scss" else "sass",
        absFilePath := some fp,
        relFilePath := some (formatFileName ctx.rootDir fp),
        lineNumber := err.line, columnNumber := err.column }
    match err.line with
    | none => d1
    | some ln =>
      if (-1 : Int) < ln - 1 then
        match ctx.readFile fp with
        | Except.ok srcText => { d1 with lines := mkLines (splitRN srcText) ln err.column }
        | Except.error _ => d1
      else d1

/-- loadDiagnostic of src/dist/index.js lines 17-99. The returned pair is
the function result together with the diagnostics collection of the
context after the call (the source pushes the diagnostic into
context.diagnostics before returning it). -/
def loadDiagnostic (ctx? : Option DCtx) (err? : Option SassError) (filePath? : Option String) :
    Option Diag × List Diag :=
  match err?, ctx? with
  | some err, some ctx =>
    let d := mkDiagnostic ctx err filePath?
    (some d, ctx.diagnostics ++ [d])
  | _, _ => (none, (ctx?.map DCtx.diagnostics).getD [])

/-! ## getRenderOptions (src/dist/index.js lines 192-296)

JavaScript arrays are mutable heap objects, so the fields of the options
object that hold arrays are modelled as references (indices) into an
explicit store; Object.assign copies the references, slice and the array
literal allocate fresh ones, and push writes through a reference. User
importer functions are opaque tokens; the importer closure that the
function itself installs (lines 256-290) is the distinguished token
tilde: its behaviour is asynchronous resolution against the host module
resolver and is not itself the subject of a claim. The node path module
is an external collaborator and enters as an abstract interface. -/

/-- Importer value: an opaque user-supplied function, or the tilde
importer installed by getRenderOptions. -/
inductive ImpVal
  | user (n : Nat)
  | tilde
deriving DecidableEq

/-- Shape of an importer option: a single function or an array of
functions (a reference into the importer-array store). -/
inductive ImporterField
  | fn (v : ImpVal)
  | arr (r : Nat)
deriving DecidableEq

/-- Store of mutable arrays: string arrays (includePaths,
injectGlobalPaths, silenceDeprecations) and importer arrays. -/
structure RStore where
  strArrs : List (List String)
  impArrs : List (List ImpVal)
deriving DecidableEq

/-- Read a string array through a reference. -/
def getStr (st : RStore) (r : Nat) : List String :=
  (st.strArrs.get? r).getD []

/-- Read an importer array through a reference. -/
def getImp (st : RStore) (r : Nat) : List ImpVal :=
  (st.impArrs.get? r).getD []

/-- User-supplied plugin options, the fields getRenderOptions reads; each
field may be absent. Unrecognized compiler options pass through the
shallow copy untouched and play no role in any claim, so they are not
carried. -/
structure PluginOpts where
  includePaths : Option Nat
  injectGlobalPaths : Option Nat
  silenceDeprecations : Option Nat
  importer : Option ImporterField
  file : Option String
  data : Option String
deriving DecidableEq

/-- Options object returned by getRenderOptions. -/
structure RenderOpts where
  includePaths : Option Nat
  injectGlobalPaths : Option Nat
  silenceDeprecations : Option Nat
  importer : Option ImporterField
  file : Option String
  data : String
  indentedSyntax : Bool
deriving DecidableEq

/-- Runtime context as consumed by getRenderOptions:
context.config.rootDir and the two optional sys capabilities. -/
structure RCtx where
  rootDir : String
  hasSysNormalizePath : Bool
  sysNormalizePath : String → String
  hasResolveModuleId : Bool

/-- The node path module, an external collaborator (spec section 1),
modelled at its interface. -/
structure PathSys where
  dirname : String → String
  isAbsolute : String → Bool
  resolve : String → String → String
  join : String → String → String

/-- getRenderOptions, translated from src/dist/index.js lines 192-296.
Comments cite the source lines. The returned pair is the options object
together with the final array store. -/
def getRenderOptions (ps : PathSys) (opts : PluginOpts) (sourceText fileName : String)
    (ctx : RCtx) (st : RStore) : RenderOpts × RStore :=
  -- line 196: shallow copy plus data, line 199: indentedSyntax from the extension
  let indented := endsWithCI ".sass".toList fileName.toList
  -- line 201: copy the includePaths array (or start empty)
  let inclCopy := match opts.includePaths with | some r => getStr st r | none => []
  let rIncl := st.strArrs.length
  let st1 : RStore := { st with strArrs := st.strArrs ++ [inclCopy] }
  -- line 203: push the directory of the source file
  let st2 : RStore :=
    { st1 with strArrs := st1.strArrs.set rIncl (getStr st1 rIncl ++ [ps.dirname fileName]) }
  -- lines 205-211: map every entry to an absolute path (a fresh array)
  let mapped :=
    (getStr st2 rIncl).map (fun q => if ps.isAbsolute q then q else ps.resolve ctx.rootDir q)
  let rIncl2 := st2.strArrs.length
  let st3 : RStore := { st2 with strArrs := st2.strArrs ++ [mapped] }
  -- line 214: copy the injectGlobalPaths array (a local)
  let injCopy := match opts.injectGlobalPaths with | some r => getStr st3 r | none => []
  let rInj := st3.strArrs.length
  let st4 : RStore := { st3 with strArrs := st3.strArrs ++ [injCopy] }
  -- lines 215-236: prepend the generated import statements to data
  let data1 :=
    if 0 < (getStr st4 rInj).length then
      String.join ((getStr st4 rInj).map (fun p =>
        let p2 :=
          if ps.isAbsolute p then p
          else if ctx.hasSysNormalizePath then ctx.sysNormalizePath (ps.join ctx.rootDir p)
          else normalizePath (ps.join ctx.rootDir p)
        "@import \"" ++ p2 ++ "\"" ++ (if indented then "\n" else ";"))) ++ sourceText
    else sourceText
  -- lines 241-293: build the importer list when the host resolver exists
  let impResult : Option ImporterField × RStore :=
    if ctx.hasResolveModuleId then
      let rImps := st4.impArrs.length
      let stA : RStore := { st4 with impArrs := st4.impArrs ++ [[]] }
      let stB : RStore :=
        match opts.importer with
        | some (ImporterField.fn v) =>
          { stA with impArrs := stA.impArrs.set rImps (getImp stA rImps ++ [v]) }
        | some (ImporterField.arr ra) =>
          { stA with impArrs := stA.impArrs.set rImps (getImp stA rImps ++ getImp stA ra) }
        | none => stA
      let stC : RStore :=
        { stB with impArrs := stB.impArrs.set rImps (getImp stB rImps ++ [ImpVal.tilde]) }
      (some (ImporterField.arr rImps), stC)
    else (opts.importer, st4)
  -- line 294: append the legacy-js-api entry into a fresh array
  let silCopy := match opts.silenceDeprecations with | some r => getStr impResult.2 r | none => []
  let rSil := impResult.2.strArrs.length
  let stF : RStore := { impResult.2 with strArrs := impResult.2.strArrs ++ [silCopy ++ ["legacy-js-api"]] }
  ({ includePaths := some rIncl2,      -- lines 205-211 reassign includePaths
     injectGlobalPaths := none,        -- line 238: delete renderOpts.injectGlobalPaths
     silenceDeprecations := some rSil, -- line 294 reassigns silenceDeprecations
     importer := impResult.1,          -- line 292 (or the shallow copy of line 196)
     file := none,                     -- line 240: delete renderOpts.file
     data := data1,
     indentedSyntax := indented }, stF)

/-! ## Concrete fixtures used by witnesses -/

/-- Context whose file read always fails. -/
def ctxErrRead : DCtx := { rootDir := "/p", readFile := fun _ => Except.error (), diagnostics := [] }

/-- Context whose file read yields a one-line file. -/
def ctxOneLine : DCtx := { rootDir := "/p", readFile := fun _ => Except.ok "x", diagnostics := [] }

/-- Context whose file read yields a three-line file. -/
def ctxThreeLines : DCtx :=
  { rootDir := "/p", readFile := fun _ => Except.ok "a \x7b\n  color: red;\n\x7d", diagnostics := [] }

/-- Sass error at line 2, column 10, carrying no file of its own. -/
def errL2C10 : SassError := ⟨none, some "w", none, some 2, some 10⟩

/-- Sass error at line 5, column 3, carrying no file of its own. -/
def errL5C3 : SassError := ⟨none, some "w", none, some 5, some 3⟩

/-- Trivial path system for concrete option-builder inputs. -/
def psFix : PathSys := ⟨fun _ => "/d", fun _ => true, fun _ p => p, fun a b => a ++ "/" ++ b⟩

/-- Runtime context without optional sys capabilities. -/
def ctxFix : RCtx := ⟨"/root", false, id, false⟩

/-- Plugin options referencing a silenceDeprecations array that already
holds the legacy entry. -/
def optsFix : PluginOpts := ⟨none, none, some 0, none, none, none⟩

/-- Store holding that one silenceDeprecations array. -/
def stFix : RStore := ⟨[["legacy-js-api"]], []⟩

/-- User-supplied silenceDeprecations content: the referenced array, or
the empty list when the option is absent (the nullish coalescing of
line 294 of the source). -/
def userSilence (opts : PluginOpts) (st : RStore) : List String :=
  match opts.silenceDeprecations with
  | some r => getStr st r
  | none => []

/-! ## Theorems for the claims -/

/-- Setting the element one past a list replaces the appended singleton. -/
theorem set_concat_length {α : Type} (xs : List α) (a b : α) :
    (xs ++ [a]).set xs.length b = xs ++ [b] := by
  induction xs with
  | nil => rfl
  | cons x xs ih => simp [ih]

/-- Lookup one past a list reads the appended singleton. -/
theorem get?_concat_length' {α : Type} (xs : List α) (a : α) :
    (xs ++ [a]).get? xs.length = some a := by
  induction xs with
  | nil => rfl
  | cons x xs ih => simp [ih]

/-- Lookup at an offset past the left part of an append reads the right
part at that offset. -/
theorem getElem?_append_add {α : Type} (xs ys : List α) (k : Nat) :
    (xs ++ ys)[xs.length + k]? = ys[k]? := by
  induction xs with
  | nil => simp
  | cons x xs ih => simpa [Nat.succ_add] using ih

/-- Lookup below the length of the left part of an append stays left. -/
theorem getElem?_append_lt {α : Type} (xs ys : List α) (r : Nat) (h : r < xs.length) :
    (xs ++ ys)[r]? = xs[r]? := by
  induction xs generalizing r with
  | nil => simp at h
  | cons x xs ih =>
    cases r with
    | zero => simp
    | succ r => simpa using ih r (by simpa using h)

/-- C1: for the file with lines a-brace, two-space color colon space red
semicolon, close-brace, and a compiler error reported at line 2 column
10, the diagnostic built by loadDiagnostic has exactly three lines in
ascending lineIndex order, the first and last carrying the sentinel span
(-1, -1), and the middle (error-line) entry spanning the token red:
errorCharStart 9 (the 0-based position of its first character) and
errorLength 3, as produced by the backward/forward stop-character scan
started at the reported column. -/
theorem c1_error_line_window :
    (loadDiagnostic
      (some { rootDir := "/p", readFile := fun _ => Except.ok "a \x7b\n  color: red;\n\x7d",
              diagnostics := [] })
      (some { status := none, message := some "boom", file := none, line := some 2,
              column := some 10 })
      (some "/p/a.scss")).1.map Diag.lines =
    some
      [{ lineIndex := 0, lineNumber := 1, text := some "a \x7b",
         errorCharStart := some (-1), errorLength := -1 },
       { lineIndex := 1, lineNumber := 2, text := some "  color: red;",
         errorCharStart := some 9, errorLength := 3 },
       { lineIndex := 2, lineNumber := 3, text := some "\x7d",
         errorCharStart := some (-1), errorLength := -1 }] := by decide

/-- C4: getModuleId drops a leading tilde, splits on the slash character,
and produces, for a scoped specifier (remainder starting with an at-sign
and more than one segment), the first two segments joined by a slash as
moduleId, otherwise the first segment; filePath is the join of the
remaining segments (empty when there are none); both fields are always
strings (some) on return. The two concrete examples of the claim are
included. -/
theorem c4_getModuleId_split (s : String) :
    (getModuleId s =
      (let o : List Char :=
        if s.toList.head? = some '~' then s.toList.drop 1 else s.toList
      let segs := (splitOn '/' o).map String.mk
      if o.head? = some '@' ∧ 1 < segs.length then
        { moduleId := some (String.intercalate "/" (segs.take 2)),
          filePath := some (String.intercalate "/" (segs.drop 2)) }
      else
        { moduleId := some (segs.headD ""),
          filePath := some (String.intercalate "/" (segs.drop 1)) }))
    ∧ (getModuleId s).moduleId.isSome = true
    ∧ (getModuleId s).filePath.isSome = true
    ∧ getModuleId "~lodash/merge" = { moduleId := some "lodash", filePath := some "merge" }
    ∧ getModuleId "~@scope/pkg/file.scss" =
        { moduleId := some "@scope/pkg", filePath := some "file.scss" } := by
  refine ⟨rfl, ?_, ?_, by decide, by decide⟩ <;>
    · unfold getModuleId
      dsimp only
      split <;> split <;> rfl

/-- C2 counterexample: the claim also asserts (through the section-3
reading of the two extension fields) that includePaths is absent from the
returned options, but getRenderOptions always assigns includePaths (the
absolutized list, lines 201-211 of the source) and never deletes it: at
this concrete input the returned options carry includePaths. -/
theorem c2_counterexample_includePaths_present :
    (getRenderOptions psFix optsFix "x" "x.scss" ctxFix stFix).1.includePaths.isSome = true := by
  decide

/-- C2 amended: the options object returned by getRenderOptions never
contains the two fields removed at lines 238-240 of the source,
injectGlobalPaths and file; includePaths, by contrast, is always present
(it is a valid compiler option, reassigned to the absolutized list). -/
theorem c2_injectGlobalPaths_and_file_removed (ps : PathSys) (opts : PluginOpts)
    (sourceText fileName : String) (ctx : RCtx) (st : RStore) :
    (getRenderOptions ps opts sourceText fileName ctx st).1.injectGlobalPaths = none
    ∧ (getRenderOptions ps opts sourceText fileName ctx st).1.file = none
    ∧ (getRenderOptions ps opts sourceText fileName ctx st).1.includePaths.isSome = true :=
  ⟨rfl, rfl, rfl⟩

/-- C7: getRenderOptions never mutates the arrays the user options
reference: every array present in the store before the call is unchanged
after it (the old store is a prefix of the new one; all writes go to
freshly allocated copies). -/
theorem c7_no_user_array_mutation (ps : PathSys) (opts : PluginOpts)
    (sourceText fileName : String) (ctx : RCtx) (st : RStore) :
    st.strArrs <+: (getRenderOptions ps opts sourceText fileName ctx st).2.strArrs
    ∧ st.impArrs <+: (getRenderOptions ps opts sourceText fileName ctx st).2.impArrs := by
  obtain ⟨sa, ia⟩ := st
  obtain ⟨i1, i2, i3, imp, f0, d0⟩ := opts
  cases hR : ctx.hasResolveModuleId <;>
    rcases imp with _ | (v | ra) <;>
      simp [getRenderOptions, hR, set_concat_length, getStr, getImp,
        get?_concat_length', List.append_assoc, List.prefix_append]

/-- C8: the silenceDeprecations list of the returned options is the
user-supplied list (empty when absent) with the single entry
legacy-js-api appended at the end (line 294 of the source); the append is
unconditional, so a user list already containing legacy-js-api yields a
result counting the entry at least twice. -/
theorem c8_silenceDeprecations_append (ps : PathSys) (opts : PluginOpts)
    (sourceText fileName : String) (ctx : RCtx) (st : RStore)
    (hv : ∀ r, opts.silenceDeprecations = some r → r < st.strArrs.length) :
    ∃ ref, (getRenderOptions ps opts sourceText fileName ctx st).1.silenceDeprecations = some ref
      ∧ getStr (getRenderOptions ps opts sourceText fileName ctx st).2 ref =
          userSilence opts st ++ ["legacy-js-api"]
      ∧ ("legacy-js-api" ∈ userSilence opts st →
          2 ≤ (getStr (getRenderOptions ps opts sourceText fileName ctx st).2 ref).count
                "legacy-js-api") := by
  obtain ⟨sa, ia⟩ := st
  obtain ⟨i1, i2, i3, imp, f0, d0⟩ := opts
  have key : getStr (getRenderOptions ps ⟨i1, i2, i3, imp, f0, d0⟩ sourceText fileName ctx ⟨sa, ia⟩).2
        ((getRenderOptions ps ⟨i1, i2, i3, imp, f0, d0⟩ sourceText fileName ctx ⟨sa, ia⟩).1.silenceDeprecations.getD 0) =
      userSilence ⟨i1, i2, i3, imp, f0, d0⟩ ⟨sa, ia⟩ ++ ["legacy-js-api"] := by
    rcases i3 with _ | r
    · cases hR : ctx.hasResolveModuleId <;>
        rcases imp with _ | (v | ra) <;>
          simp [getRenderOptions, userSilence, hR, set_concat_length, getStr, getImp,
            get?_concat_length', getElem?_append_add, List.getElem_append_right]
    · have hr : r < sa.length := hv r rfl
      cases hR : ctx.hasResolveModuleId <;>
        rcases imp with _ | (v | ra) <;>
          simp [getRenderOptions, userSilence, hR, set_concat_length, getStr, getImp,
            get?_concat_length', getElem?_append_add, List.getElem_append_right,
            List.append_assoc, getElem?_append_lt, hr]
  refine ⟨(getRenderOptions ps ⟨i1, i2, i3, imp, f0, d0⟩ sourceText fileName ctx
      ⟨sa, ia⟩).1.silenceDeprecations.getD 0, rfl, key, ?_⟩
  intro hmem
  rw [key]
  simp only [List.count_append]
  have hpos : 0 < (userSilence ⟨i1, i2, i3, imp, f0, d0⟩ ⟨sa, ia⟩).count "legacy-js-api" :=
    List.count_pos_iff.mpr hmem
  have hone : (["legacy-js-api"] : List String).count "legacy-js-api" = 1 := by decide
  omega

/-- C8 witness: the theorem applied to a user list that already contains
the legacy entry, exhibiting the duplicate. -/
theorem c8_silenceDeprecations_append_witness :
    ∃ ref, (getRenderOptions psFix optsFix "x" "f.scss" ctxFix stFix).1.silenceDeprecations =
        some ref
      ∧ getStr (getRenderOptions psFix optsFix "x" "f.scss" ctxFix stFix).2 ref =
          userSilence optsFix stFix ++ ["legacy-js-api"]
      ∧ ("legacy-js-api" ∈ userSilence optsFix stFix →
          2 ≤ (getStr (getRenderOptions psFix optsFix "x" "f.scss" ctxFix stFix).2 ref).count
                "legacy-js-api") :=
  c8_silenceDeprecations_append psFix optsFix "x" "f.scss" ctxFix stFix
    (by intro r h; simp [optsFix] at h; subst h; decide)

/-- C5: loadDiagnostic returns null and leaves the diagnostics collection
unchanged exactly in the cases where the error or the context is absent;
in every other case it returns a diagnostic and appends exactly that one
diagnostic to the collection, whatever the file path availability or the
outcome of the file read. -/
theorem c5_null_iff_absent (ctx? : Option DCtx) (err? : Option SassError) (fp? : Option String) :
    ((err? = none ∨ ctx? = none) →
      (loadDiagnostic ctx? err? fp?).1 = none
      ∧ (loadDiagnostic ctx? err? fp?).2 = (ctx?.map DCtx.diagnostics).getD [])
    ∧ (∀ e c, err? = some e → ctx? = some c →
      ∃ d, (loadDiagnostic ctx? err? fp?).1 = some d
        ∧ (loadDiagnostic ctx? err? fp?).2 = c.diagnostics ++ [d]) := by
  constructor
  · intro h
    rcases err? with _ | e
    · cases ctx? <;> simp [loadDiagnostic]
    · rcases ctx? with _ | c
      · simp [loadDiagnostic]
      · rcases h with h | h <;> exact absurd h (by simp)
  · rintro e c rfl rfl
    exact ⟨mkDiagnostic c e fp?, rfl, rfl⟩

/-- C5 witness: the theorem applied at a concrete absent error. -/
theorem c5_null_iff_absent_witness :
    (loadDiagnostic (some ctxErrRead) none none).1 = none
    ∧ (loadDiagnostic (some ctxErrRead) none none).2 =
      ((some ctxErrRead).map DCtx.diagnostics).getD [] :=
  (c5_null_iff_absent (some ctxErrRead) none none).1 (Or.inl rfl)

/-- For a positive reported column the computed span has a present,
non-negative start and a non-negative length. -/
theorem spanOf_nonneg (t : List Char) (c : Int) (hc : 1 ≤ c) :
    ∃ s, (spanOf t (some c)).1 = some s ∧ 0 ≤ s ∧ 0 ≤ (spanOf t (some c)).2 := by
  have h0 : (0 : Int) ≤ c := by omega
  simp only [spanOf, if_pos h0]
  by_cases hz :
      (if (0 : Int) ≤ ((backScan t c.toNat c.toNat : Nat) : Int) then
        ((fwdLen t ((backScan t c.toNat c.toNat : Nat) : Int).toNat : Nat) : Int) else 0) = 0
      ∧ (0 : Int) < ((backScan t c.toNat c.toNat : Nat) : Int)
  · rw [if_pos hz]
    exact ⟨_, rfl, by omega, by omega⟩
  · rw [if_neg hz]
    refine ⟨_, rfl, Int.natCast_nonneg _, ?_⟩
    split <;> simp

/-- Field values of the error-line entry. -/
theorem mkErrorLine_eq (srcLines : List String) (ln : Int) (col? : Option Int) :
    mkErrorLine srcLines ln col? =
      { lineIndex := ln - 1, lineNumber := ln,
        text := some ((jsIndex srcLines (ln - 1)).getD ""),
        errorCharStart := (spanOf ((jsIndex srcLines (ln - 1)).getD "").toList col?).1,
        errorLength := (spanOf ((jsIndex srcLines (ln - 1)).getD "").toList col?).2 } := rfl

/-- Membership in the lines array: an entry is the error line, the
previous line (only when the error-line index is positive) or the next
line (only when a further source line exists). -/
theorem mem_mkLines {srcLines : List String} {ln : Int} {col? : Option Int} {e : SrcLine}
    (he : e ∈ mkLines srcLines ln col?) :
    e = mkErrorLine srcLines ln col?
    ∨ ((0 : Int) < ln - 1 ∧ e = mkPrevLine srcLines ln)
    ∨ (ln - 1 + 1 < (srcLines.length : Int) ∧ e = mkNextLine srcLines ln) := by
  unfold mkLines at he
  dsimp only at he
  split at he <;> split at he <;> rename_i h1 h2 <;> simp at he <;> tauto

/-- The lines array never exceeds three entries. -/
theorem mkLines_length_le (srcLines : List String) (ln : Int) (col? : Option Int) :
    (mkLines srcLines ln col?).length ≤ 3 := by
  unfold mkLines
  split <;> split <;> simp

/-- The lines array is strictly ascending in lineIndex. -/
theorem mkLines_chain (srcLines : List String) (ln : Int) (col? : Option Int) :
    (mkLines srcLines ln col?).Chain' (fun a b => a.lineIndex < b.lineIndex) := by
  unfold mkLines
  split <;> split <;>
    simp [mkPrevLine, mkNextLine, mkErrorLine_eq]

/-- C6: every diagnostic built by loadDiagnostic from an error carrying a
1-based line number and a positive column has at most three line entries,
in ascending lineIndex order; every entry at the error's zero-based line
has a present, non-negative errorCharStart and a non-negative
errorLength, while every other entry carries the sentinel pair (-1, -1);
an error on the first line yields no previous-line entry, and an error on
the last line of the read file yields no next-line entry. -/
theorem c6_lines_invariants (ctx : DCtx) (err : SassError) (fp? : Option String) (ln c : Int)
    (hl : err.line = some ln) (h1 : 1 ≤ ln) (hc : err.column = some c) (h2 : 1 ≤ c)
    (d : Diag) (hd : (loadDiagnostic (some ctx) (some err) fp?).1 = some d) :
    d.lines.length ≤ 3
    ∧ d.lines.Chain' (fun a b => a.lineIndex < b.lineIndex)
    ∧ (∀ e ∈ d.lines,
        (e.lineIndex = ln - 1 →
          (∃ s, e.errorCharStart = some s ∧ 0 ≤ s) ∧ 0 ≤ e.errorLength)
        ∧ (e.lineIndex ≠ ln - 1 → e.errorCharStart = some (-1) ∧ e.errorLength = -1))
    ∧ (ln = 1 → ∀ e ∈ d.lines, ln - 1 ≤ e.lineIndex)
    ∧ (∀ fp t, effectiveFile err fp? = some fp → ctx.readFile fp = Except.ok t →
        ln = ((splitRN t).length : Int) → ∀ e ∈ d.lines, e.lineIndex < ln) := by
  have hd' : d = mkDiagnostic ctx err fp? := by
    simpa [loadDiagnostic] using hd.symm
  subst hd'
  rcases hfp : effectiveFile err fp? with _ | fp
  · simp [mkDiagnostic, hfp]
  · rcases hrf : ctx.readFile fp with u | t0
    · simp [mkDiagnostic, hfp, hl, hrf]
    · have hif : (-1 : Int) < ln - 1 := by omega
      have hr3 : (mkDiagnostic ctx err fp?).lines = mkLines (splitRN t0) ln (some c) := by
        simp [mkDiagnostic, hfp, hl, hrf, hif, hc]
      rw [hr3]
      obtain ⟨sp, hsp1, hsp2, hsp3⟩ := spanOf_nonneg
        (((jsIndex (splitRN t0) (ln - 1)).getD "").toList) c h2
      refine ⟨mkLines_length_le _ _ _, mkLines_chain _ _ _, ?_, ?_, ?_⟩
      · intro e he
        rcases mem_mkLines he with rfl | ⟨hp, rfl⟩ | ⟨hn, rfl⟩
        · constructor
          · intro _
            rw [mkErrorLine_eq]
            exact ⟨⟨sp, hsp1, hsp2⟩, hsp3⟩
          · intro hne
            exact absurd (by rw [mkErrorLine_eq]) hne
        · constructor
          · intro heq
            rw [mkPrevLine] at heq
            exact absurd heq (by dsimp only; omega)
          · intro _
            exact ⟨rfl, rfl⟩
        · constructor
          · intro heq
            rw [mkNextLine] at heq
            exact absurd heq (by dsimp only; omega)
          · intro _
            exact ⟨rfl, rfl⟩
      · intro hln1 e he
        rcases mem_mkLines he with rfl | ⟨hp, rfl⟩ | ⟨hn, rfl⟩
        · rw [mkErrorLine_eq]
        · omega
        · rw [mkNextLine]
          dsimp only
          omega
      · intro fp2 t2 hef hrt hlen e he
        obtain rfl : fp = fp2 := by injection hef
        rw [hrf] at hrt
        obtain rfl : t0 = t2 := by injection hrt
        rcases mem_mkLines he with rfl | ⟨hp, rfl⟩ | ⟨hn, rfl⟩
        · rw [mkErrorLine_eq]
          dsimp only
          omega
        · rw [mkPrevLine]
          dsimp only
          omega
        · omega

/-- C6 witness: the invariants at the concrete three-line file of C1. -/
theorem c6_lines_invariants_witness :
    (mkDiagnostic ctxThreeLines errL2C10 (some "/p/a.scss")).lines.length ≤ 3 :=
  (c6_lines_invariants ctxThreeLines errL2C10 (some "/p/a.scss") 2 10 rfl (by decide) rfl
    (by decide) _ rfl).1

/-- The error-line entry always belongs to the lines array. -/
theorem mkErrorLine_mem (srcLines : List String) (ln : Int) (col? : Option Int) :
    mkErrorLine srcLines ln col? ∈ mkLines srcLines ln col? := by
  unfold mkLines
  dsimp only
  split <;> split <;> simp

/-- The backward scan over empty text stops immediately, keeping the
start value. -/
theorem backScan_nil (cur i : Nat) : backScan [] cur i = cur := by
  cases i <;> simp [backScan, stopAt]

/-- Over empty text with a positive column, both scans stop at once and
the zero-length fallback fires: the span is column minus one, length
one. -/
theorem spanOf_nil {c : Int} (hc : 0 < c) : spanOf [] (some c) = (some (c - 1), 1) := by
  have h0 : (0 : Int) ≤ c := by omega
  simp only [spanOf, backScan_nil, if_pos h0, Int.toNat_of_nonneg h0]
  have hf : fwdLen [] c.toNat = 0 := by simp [fwdLen]
  rw [hf]
  simp only [Nat.cast_zero, if_pos h0]
  rw [if_pos ⟨trivial, hc⟩]

/-- C10: when the reported zero-based line index is non-negative but the
read file has no line at that index, the error-line entry is still built,
with empty text; every scan over empty text stops at once, so for a
positive reported column the zero-length fallback yields the span
(column - 1, 1). -/
theorem c10_missing_line_span (ctx : DCtx) (err : SassError) (fp? : Option String)
    (ln c : Int) (fp t : String)
    (hl : err.line = some ln) (h1 : 1 ≤ ln) (hc : err.column = some c) (h2 : 0 < c)
    (hef : effectiveFile err fp? = some fp) (hrf : ctx.readFile fp = Except.ok t)
    (hmiss : (splitRN t).length ≤ (ln - 1).toNat)
    (d : Diag) (hd : (loadDiagnostic (some ctx) (some err) fp?).1 = some d) :
    ({ lineIndex := ln - 1, lineNumber := ln, text := some "", errorCharStart := some (c - 1),
       errorLength := 1 } : SrcLine) ∈ d.lines := by
  have hd' : d = mkDiagnostic ctx err fp? := by
    simpa [loadDiagnostic] using hd.symm
  subst hd'
  have hif : (-1 : Int) < ln - 1 := by omega
  have hr3 : (mkDiagnostic ctx err fp?).lines = mkLines (splitRN t) ln (some c) := by
    simp [mkDiagnostic, hef, hl, hrf, hif, hc]
  rw [hr3]
  have htext : jsIndex (splitRN t) (ln - 1) = none := by
    rw [jsIndex, if_pos (by omega : (0 : Int) ≤ ln - 1)]
    exact List.get?_eq_none.mpr hmiss
  have herr : mkErrorLine (splitRN t) ln (some c) =
      { lineIndex := ln - 1, lineNumber := ln, text := some "", errorCharStart := some (c - 1),
        errorLength := 1 } := by
    rw [mkErrorLine_eq, htext]
    have hnil : (((none : Option String).getD "").toList) = [] := rfl
    rw [hnil, spanOf_nil h2]
    rfl
  rw [← herr]
  exact mkErrorLine_mem _ _ _

/-- C10 witness: a one-line file with an error reported at line 5,
column 3 yields the empty-text entry with span (2, 1). -/
theorem c10_missing_line_span_witness :
    ({ lineIndex := 4, lineNumber := 5, text := some "", errorCharStart := some 2,
       errorLength := 1 } : SrcLine) ∈ (mkDiagnostic ctxOneLine errL5C3 (some "f.scss")).lines :=
  c10_missing_line_span ctxOneLine errL5C3 (some "f.scss") 5 3 "f.scss" "x" rfl (by decide)
    rfl (by decide) rfl rfl (by decide) _ rfl

/-- A list whose head does not satisfy the predicate is unchanged by
dropWhile. -/
theorem dropWhile_eq_self_of_head {α : Type} {p : α → Bool} :
    ∀ {l : List α}, (∀ a, l.head? = some a → p a = false) → l.dropWhile p = l
  | [], _ => rfl
  | c :: cs, h => by
    have hc : p c = false := h c rfl
    simp [List.dropWhile_cons, hc]

/-- The head of a dropWhile result never satisfies the predicate. -/
theorem head?_dropWhile {α : Type} {p : α → Bool} :
    ∀ {l : List α} {a : α}, (l.dropWhile p).head? = some a → p a = false := by
  intro l
  induction l with
  | nil => intro a h; simp at h
  | cons c cs ih =>
    intro a h
    by_cases hc : p c
    · rw [List.dropWhile_cons, if_pos hc] at h
      exact ih h
    · rw [List.dropWhile_cons, if_neg hc] at h
      obtain rfl : c = a := by simpa using h
      simpa using hc

/-- dropWhile is idempotent. -/
theorem dropWhile_idem {α : Type} {p : α → Bool} (l : List α) :
    (l.dropWhile p).dropWhile p = l.dropWhile p :=
  dropWhile_eq_self_of_head (fun _ h => head?_dropWhile h)

/-- A non-empty dropWhile result keeps the last element of the list. -/
theorem getLast?_dropWhile_ne_nil {α : Type} {p : α → Bool} :
    ∀ {l : List α}, l.dropWhile p ≠ [] → (l.dropWhile p).getLast? = l.getLast? := by
  intro l
  induction l with
  | nil => intro h; simp at h
  | cons c cs ih =>
    intro h
    by_cases hc : p c
    · rw [List.dropWhile_cons, if_pos hc] at h ⊢
      have hcs : cs ≠ [] := by
        rintro rfl
        exact h rfl
      rw [ih h]
      obtain ⟨b, bs, rfl⟩ := List.exists_cons_of_ne_nil hcs
      rfl
    · rw [List.dropWhile_cons, if_neg hc]

/-- JavaScript trim is idempotent. -/
theorem jsTrimL_idem (l : List Char) : jsTrimL (jsTrimL l) = jsTrimL l := by
  unfold jsTrimL
  have h1 : ((((l.dropWhile jsWs).reverse.dropWhile jsWs).reverse).dropWhile jsWs) =
      (((l.dropWhile jsWs).reverse.dropWhile jsWs).reverse) := by
    apply dropWhile_eq_self_of_head
    intro a ha
    rcases hX : ((l.dropWhile jsWs).reverse.dropWhile jsWs) with _ | ⟨b, bs⟩
    · rw [hX] at ha
      simp at ha
    · have hXne : (l.dropWhile jsWs).reverse.dropWhile jsWs ≠ [] := by
        rw [hX]
        exact List.cons_ne_nil _ _
      have h2 : (((l.dropWhile jsWs).reverse.dropWhile jsWs).reverse).head? =
          (l.dropWhile jsWs).head? := by
        rw [List.head?_reverse, getLast?_dropWhile_ne_nil hXne, List.getLast?_reverse]
      rw [h2] at ha
      exact head?_dropWhile (by rw [ha])
  rw [h1, List.reverse_reverse, dropWhile_idem]

/-- Trim commutes with a character map that preserves whitespace
status. -/
theorem jsTrimL_map_comm (f : Char → Char) (hf : ∀ c, jsWs (f c) = jsWs c) (l : List Char) :
    jsTrimL (l.map f) = (jsTrimL l).map f := by
  have hc1 : (jsWs ∘ f) = jsWs := funext hf
  unfold jsTrimL
  simp only [List.dropWhile_map, ← List.map_reverse, hc1]

/-- Separator conversion preserves whitespace status. -/
theorem jsWs_slashConv (c : Char) : jsWs (slashConv c) = jsWs c := by
  unfold slashConv
  split
  · rename_i h
    subst h
    decide
  · rfl

/-- Separator conversion is idempotent. -/
theorem slashConv_idem (c : Char) : slashConv (slashConv c) = slashConv c := by
  unfold slashConv
  by_cases h : c = '\\' <;> simp [h]

/-- Separator conversion never yields a backslash. -/
theorem slashConv_ne_backslash (c : Char) : slashConv c ≠ '\\' := by
  unfold slashConv
  by_cases h : c = '\\' <;> simp [h]

/-- C3: on an ASCII path without the extended-length prefix, after trim
and backslash conversion, normalizePath strips a single trailing slash,
except that the trailing slash is preserved when the colon found by the
source's indexOf scan sits within two characters of the end (a drive
root) or when the whole string is the single character slash; the two
concrete drive examples of the claim are included. -/
theorem c3_strip_trailing_slash (s : String)
    (hA : ∀ ch ∈ jsTrimL s.toList, ch.toNat ≤ 0x80)
    (hE : extPrefix (jsTrimL s.toList) = false) :
    (((jsTrimL s.toList).map slashConv).getLast? = some '/' →
      (((∃ ci, ((jsTrimL s.toList).map slashConv).findIdx? (fun c => c = ':') = some ci ∧
          (((jsTrimL s.toList).map slashConv).length : Int) - 2 ≤ (ci : Int))
        ∨ ((jsTrimL s.toList).map slashConv).length = 1) →
        normalizePath s = String.mk ((jsTrimL s.toList).map slashConv))
      ∧ (((∀ ci, ((jsTrimL s.toList).map slashConv).findIdx? (fun c => c = ':') = some ci →
            (ci : Int) < (((jsTrimL s.toList).map slashConv).length : Int) - 2)
          ∧ ((jsTrimL s.toList).map slashConv).length ≠ 1) →
        normalizePath s = String.mk (((jsTrimL s.toList).map slashConv).dropLast)))
    ∧ normalizePath "C:\\foo\\bar\\" = "C:/foo/bar"
    ∧ normalizePath "C:\\" = "C:/" := by
  refine ⟨?_, by decide, by decide⟩
  intro hlast
  have hna : hasNonAscii (jsTrimL s.toList) = false := by
    rw [hasNonAscii, List.any_eq_false]
    intro c hc
    have := hA c hc
    simp
    omega
  have hcond : ¬ ((extPrefix (jsTrimL s.toList) || hasNonAscii (jsTrimL s.toList)) = true) := by
    rw [hE, hna]
    decide
  have hne : ((jsTrimL s.toList).map slashConv) ≠ [] := by
    intro h
    rw [h] at hlast
    simp at hlast
  have hkey : normalizePath s = String.mk
      (match ((jsTrimL s.toList).map slashConv).findIdx? (fun c => c = ':') with
        | some ci =>
          if (ci : Int) < ((((jsTrimL s.toList).map slashConv).length : Int)) - 2 then
            ((jsTrimL s.toList).map slashConv).dropLast
          else ((jsTrimL s.toList).map slashConv)
        | none =>
          if 1 < ((jsTrimL s.toList).map slashConv).length then
            ((jsTrimL s.toList).map slashConv).dropLast
          else ((jsTrimL s.toList).map slashConv)) := by
    rw [normalizePath, normalizePathL]
    dsimp only
    rw [if_neg hcond, if_pos hlast]
  constructor
  · rintro (⟨ci, hci, hge⟩ | hlen1)
    · rw [hkey, hci]
      dsimp only
      rw [if_neg (by omega)]
    · rcases hu : ((jsTrimL s.toList).map slashConv) with _ | ⟨c, cs⟩
      · exact absurd hu hne
      · have hcs : cs = [] := by
          rw [hu] at hlen1
          simpa using hlen1
        subst hcs
        obtain rfl : c = '/' := by
          rw [hu] at hlast
          simpa using hlast
        rw [hkey, hu]
        rfl
  · rintro ⟨hlt, hne1⟩
    rcases hfi : ((jsTrimL s.toList).map slashConv).findIdx? (fun c => c = ':') with _ | ci
    · have hgt : 1 < ((jsTrimL s.toList).map slashConv).length := by
        have hpos : 0 < ((jsTrimL s.toList).map slashConv).length :=
          List.length_pos.mpr hne
        omega
      rw [hkey, hfi]
      dsimp only
      rw [if_pos hgt]
    · rw [hkey, hfi]
      dsimp only
      rw [if_pos (hlt ci hfi)]

/-- C3 witness: the bare drive root keeps its trailing slash through the
preserved branch of the theorem. -/
theorem c3_strip_trailing_slash_witness :
    normalizePath "C:\\" = String.mk ((jsTrimL "C:\\".toList).map slashConv) :=
  ((c3_strip_trailing_slash "C:\\" (by decide) (by decide)).1 (by decide)).1
    (Or.inl ⟨1, by decide, by decide⟩)

/-- C9 counterexample: the path a-space-slash-space is ASCII, has no
trailing slash (it ends in a space) and no drive-root-adjacent colon, yet
normalizePath is not idempotent on it: the first pass trims, strips the
slash and leaves a trailing space (a-space), and the second pass trims
that space away (a). -/
theorem c9_counterexample_not_idempotent :
    normalizePath (normalizePath "a / ") ≠ normalizePath "a / " := by decide

/-- C9 amended: normalizePath is idempotent on every ASCII path whose
whitespace-trimmed form ends in neither a forward slash nor a backslash
(and with no drive-root-adjacent colon); the trim condition is what the
counterexample forces, since stripping the trailing slash of a path like
a-space-slash can expose trailing whitespace for the second pass. -/
theorem c9_idempotent (s : String)
    (hA : ∀ ch ∈ jsTrimL s.toList, ch.toNat ≤ 0x80)
    (hS : (jsTrimL s.toList).getLast? ≠ some '/')
    (hB : (jsTrimL s.toList).getLast? ≠ some '\\')
    (hC : ∀ ci, (jsTrimL s.toList).findIdx? (fun c => c = ':') = some ci →
        (ci : Int) < ((jsTrimL s.toList).length : Int) - 2) :
    normalizePath (normalizePath s) = normalizePath s := by
  rcases hE : extPrefix (jsTrimL s.toList) with _ | _
  · -- ordinary path: the result is the converted trimmed list, unstripped
    have hna : hasNonAscii (jsTrimL s.toList) = false := by
      rw [hasNonAscii, List.any_eq_false]
      intro c hc
      have := hA c hc
      simp
      omega
    have hcond : ¬ ((extPrefix (jsTrimL s.toList) || hasNonAscii (jsTrimL s.toList)) = true) := by
      rw [hE, hna]
      decide
    have hul : ((jsTrimL s.toList).map slashConv).getLast? ≠ some '/' := by
      rw [List.getLast?_map]
      rcases hg : (jsTrimL s.toList).getLast? with _ | c
      · simp
      · rw [hg] at hS hB
        have hc1 : c ≠ '/' := by
          intro h
          exact hS (by rw [h])
        have hc2 : c ≠ '\\' := by
          intro h
          exact hB (by rw [h])
        simp [slashConv, hc2, hc1]
    have h1 : normalizePath s = String.mk ((jsTrimL s.toList).map slashConv) := by
      rw [normalizePath, normalizePathL]
      dsimp only
      rw [if_neg hcond, if_neg hul]
    have hju : jsTrimL ((jsTrimL s.toList).map slashConv) = (jsTrimL s.toList).map slashConv := by
      rw [jsTrimL_map_comm slashConv jsWs_slashConv, jsTrimL_idem]
    have hnb : ∀ c ∈ (jsTrimL s.toList).map slashConv, c ≠ '\\' := by
      intro c hc
      obtain ⟨a, _, rfl⟩ := List.mem_map.mp hc
      exact slashConv_ne_backslash a
    have hEu : extPrefix ((jsTrimL s.toList).map slashConv) = false := by
      rcases hu : (jsTrimL s.toList).map slashConv with _ | ⟨c, cs⟩
      · rfl
      · have hc : c ≠ '\\' := by
          apply hnb
          rw [hu]
          exact List.mem_cons_self c cs
        simp [extPrefix, List.isPrefixOf, hc]
        intro h
        exact absurd h.symm hc
    have hnau : hasNonAscii ((jsTrimL s.toList).map slashConv) = false := by
      rw [hasNonAscii, List.any_eq_false]
      intro c hc
      obtain ⟨a, ha, rfl⟩ := List.mem_map.mp hc
      have h1 := hA a ha
      simp only [slashConv]
      split
      · decide
      · simp
        omega
    have hmap : ((jsTrimL s.toList).map slashConv).map slashConv =
        (jsTrimL s.toList).map slashConv := by
      rw [List.map_map]
      have : (slashConv ∘ slashConv) = slashConv := funext slashConv_idem
      rw [this]
    have h2 : normalizePathL ((jsTrimL s.toList).map slashConv) =
        (jsTrimL s.toList).map slashConv := by
      rw [normalizePathL]
      dsimp only
      rw [hju, hmap]
      rw [if_neg (by rw [hEu, hnau]; decide), if_neg hul]
    rw [h1]
    rw [normalizePath]
    rw [show (String.mk ((jsTrimL s.toList).map slashConv)).toList =
      (jsTrimL s.toList).map slashConv from rfl]
    rw [h2]
  · -- extended-length path: returned unchanged (after trim) by both passes
    have h1 : normalizePath s = String.mk (jsTrimL s.toList) := by
      rw [normalizePath, normalizePathL]
      dsimp only
      rw [if_pos (by rw [hE]; rfl)]
    rw [h1, normalizePath, normalizePathL]
    dsimp only
    rw [show (String.mk (jsTrimL s.toList)).toList = jsTrimL s.toList from rfl]
    rw [jsTrimL_idem]
    rw [if_pos (by rw [hE]; rfl)]

/-- C9 witness: idempotence at a concrete drive path without trailing
separator. -/
theorem c9_idempotent_witness :
    normalizePath (normalizePath "C:\\foo\\bar") = normalizePath "C:\\foo\\bar" :=
  c9_idempotent "C:\\foo\\bar" (by decide) (by decide) (by decide)
    (by decide)

end StencilSass
